import Mathlib

/-!
Verification of the CSV table engine of `linkedin_prospecting_csv/csv_ops.py`.

The engine is shallowly embedded: a loaded table is a list of rows over a
discovered column list; a row is an association list from column name to a
scalar cell value.  The on-disk file is modelled as `FileState`: absent,
present-but-unparsable (carrying the parse error the codec would raise), or a
parsed table.  Reading a written table back is modelled as the identity — the
spec places the byte-level CSV codec (quoting, type re-inference) out of
scope.  Numeric cells are modelled with `Int` (the tool interface passes
integer score bounds); pandas `to_numeric` on strings is modelled by integer
parsing.  Python floats are out of the modelled scope.  The regular-expression
semantics that `str.contains` applies to filter patterns is modelled for the
fragment actually exercised: alternation of atoms where an atom is a literal
character or the `.` wildcard; patterns using other metacharacters are outside
the modelled fragment and theorems about pattern matching carry a
metacharacter-freeness hypothesis.
-/

/-- A scalar cell of the table: a string, an integer, or pandas NA. -/
inductive Value where
  | str : String → Value
  | int : Int → Value
  | null : Value
deriving DecidableEq, Repr

/-- One record: an association list from column name to cell value.
Lookup of an absent column yields `Value.null`, matching a reindexed frame. -/
abbrev Row := List (String × Value)

/-- A loaded data frame: the header (ordered column names) and the rows. -/
structure DF where
  cols : List String
  rows : List Row
deriving DecidableEq, Repr

/-- The backing file: absent, present but unparsable (with the parse error
message `pd.read_csv` would raise), or parsed into a frame. -/
abbrev FileState := Option (Except String DF)

/-- Cell lookup (first binding wins); missing columns read as NA (`df['c']`
after reindexing). -/
def getCell (r : Row) (c : String) : Value :=
  match r with
  | [] => Value.null
  | p :: rest => if p.1 = c then p.2 else getCell rest c

/-- Column assignment `df[c] = v` restricted to one row: the new binding
shadows and replaces any old binding of `c`. -/
def setCell (r : Row) (c : String) (v : Value) : Row :=
  (c, v) :: r.filter (fun p => decide (p.1 ≠ c))

/-- Reindex one row to a fixed column list (`DataFrame.reindex(columns=...)`):
columns outside the list are dropped, missing columns become NA. -/
def projectRow (cols : List String) (r : Row) : Row :=
  cols.map (fun c => (c, getCell r c))

/-- Column set of `pd.DataFrame(list_of_dicts)`: keys in first-appearance
order across the records. -/
def unionKeys (rows : List Row) : List String :=
  rows.foldl (fun acc r => r.foldl (fun acc2 p => if p.1 ∈ acc2 then acc2 else acc2 ++ [p.1]) acc) []

/-- Column order of `pd.concat([a, b])`: `a`'s columns then `b`'s new ones. -/
def dfConcat (a b : DF) : DF :=
  ⟨a.cols ++ b.cols.filter (fun c => decide (c ∉ a.cols)), a.rows ++ b.rows⟩

/-- `fillna("")` on one cell: NA becomes the empty string. -/
def fillVal : Value → Value
  | Value.null => Value.str ""
  | v => v

/-- `df.fillna("").to_dict(orient='records')` for one row: every column of the
frame appears, NA rendered as the empty string. -/
def fillRow (cols : List String) (r : Row) : Row :=
  cols.map (fun c => (c, fillVal (getCell r c)))

/-- ASCII lowering of a character list (model of `re.IGNORECASE` /
`str.lower()` on the ASCII fragment). -/
def lowerL (l : List Char) : List Char :=
  l.map Char.toLower

/-- Literal substring test: `needle in hay` (Python / pandas `regex=False`). -/
def containsSub (needle hay : List Char) : Bool :=
  hay.tails.any (fun t => needle.isPrefixOf t)

/-- Case-insensitive literal substring test (pandas `contains(case=False,
regex=False)` lowers both sides before the scan). -/
def containsCI (needle hay : String) : Bool :=
  containsSub (lowerL needle.toList) (lowerL hay.toList)

/-- Python `str.strip()` on a character list. -/
def stripChars (l : List Char) : List Char :=
  (((l.dropWhile Char.isWhitespace).reverse).dropWhile Char.isWhitespace).reverse

/-- Python `str.strip()`. -/
def pyStrip (s : String) : String :=
  ⟨stripChars s.toList⟩

/-- `Series.astype(str)` on one cell: Python `str()`; NA prints as "nan". -/
def pyStr : Value → String
  | Value.str s => s
  | Value.int n => toString n
  | Value.null => "nan"

/-- Regex metacharacters of Python `re`; patterns containing any of them
(except the modelled `.` wildcard) are outside the modelled fragment. -/
def metaChars : List Char :=
  ['.', '^', '$', '*', '+', '?', Char.ofNat 123, Char.ofNat 125, '[', ']', '\\', '|', '(', ')']

/-- A pattern string free of every regex metacharacter: it is then matched
purely literally by `re.search`. -/
def metaFree (s : String) : Bool :=
  s.toList.all (fun c => decide (c ∉ metaChars))

/-- Matching of a pattern (atoms: literal char or `.` wildcard) against a
prefix of the text; `ci` selects `re.IGNORECASE` literal comparison. -/
def dotMatchCI (ci : Bool) : List Char → List Char → Bool
  | [], _ => true
  | _ :: _, [] => false
  | p :: ps, c :: cs =>
    (p == '.' || (if ci then Char.toLower p == Char.toLower c else p == c)) && dotMatchCI ci ps cs

/-- `re.search`: the pattern matches at some position of the text. -/
def dotSearch (ci : Bool) (p s : List Char) : Bool :=
  s.tails.any (fun t => dotMatchCI ci p t)

/-- The location/company predicate of `filter_profiles` on one cell:
`Series.str.contains('|'.join(pats), case=False, na=False)`.  The `.str`
accessor gives NA (hence, by `na=False`, no match) on non-string cells; the
joined pattern matches when any alternative matches as a case-insensitive
regex. -/
def strContainsRegexCI (pats : List String) (v : Value) : Bool :=
  match v with
  | Value.str s => pats.any (fun p => dotSearch true p.toList s.toList)
  | _ => false

/-- Decimal digit value of a character. -/
def digitVal (c : Char) : Option Nat :=
  if c.isDigit then some (c.toNat - 48) else none

/-- Parse a non-empty all-digit character list as a natural number. -/
def parseDigits : List Char → Option Nat
  | [] => none
  | l => l.foldl (fun acc c =>
      match acc, digitVal c with
      | some n, some d => some (n * 10 + d)
      | _, _ => none) (some 0)

/-- Parse an optionally negated decimal integer string. -/
def parseIntStr (s : String) : Option Int :=
  match s.toList with
  | '-' :: rest => (parseDigits rest).map (fun n => -(n : Int))
  | l => (parseDigits l).map (fun n => (n : Int))

/-- `pd.to_numeric(errors='coerce')` on one cell, on the modelled integer
fragment: integers pass through, integer-formed strings parse, everything
else coerces to NA. -/
def toNumeric : Value → Option Int
  | Value.int n => some n
  | Value.str s => parseIntStr s
  | Value.null => none

/-- The in-place coercion `df['v2 Score'] = pd.to_numeric(df['v2 Score'],
errors='coerce')` restricted to one row. -/
def coerceScore (r : Row) : Row :=
  setCell r "v2 Score" (match toNumeric (getCell r "v2 Score") with
    | some n => Value.int n
    | none => Value.null)

/-- Sort key of `sort_values(by='v2 Score', ascending=False)`: numeric cells
by value, NA (and any non-numeric leftover) as bottom, i.e. last. -/
def rank (r : Row) : WithBot Int :=
  match getCell r "v2 Score" with
  | Value.int n => (n : WithBot Int)
  | _ => ⊥

/-- Strict comparison of two rows' sort keys: numeric against numeric by
value; NA (and non-numeric leftovers) strictly below every numeric value. -/
def rankLtb (x r : Row) : Bool :=
  match getCell x "v2 Score", getCell r "v2 Score" with
  | Value.int m, Value.int n => decide (m < n)
  | Value.int _, _ => false
  | _, Value.int _ => true
  | _, _ => false

/-- Insertion step of the descending score sort. -/
def insertDesc (r : Row) : List Row → List Row
  | [] => [r]
  | x :: xs => if rankLtb x r then r :: x :: xs else x :: insertDesc r xs

/-- `df.sort_values(by='v2 Score', ascending=False)` (NA positioned last). -/
def sortDesc : List Row → List Row
  | [] => []
  | x :: xs => insertDesc x (sortDesc xs)

/-- `if limit: df = df.head(limit)` — note a limit of 0 is falsy in Python
and therefore does not truncate. -/
def applyLimit (limit : Option Nat) (rows : List Row) : List Row :=
  match limit with
  | some n => if n = 0 then rows else rows.take n
  | none => rows

/-- `df['v2 Score'] >= s` on one (already coerced) row; NA compares False. -/
def scoreGEb (s : Int) (r : Row) : Bool :=
  match getCell r "v2 Score" with
  | Value.int n => decide (s ≤ n)
  | _ => false

/-- `df['v2 Score'] <= s` on one (already coerced) row; NA compares False. -/
def scoreLEb (s : Int) (r : Row) : Bool :=
  match getCell r "v2 Score" with
  | Value.int n => decide (n ≤ s)
  | _ => false

/-- `Series.str.startswith('YES', na=False)` on one cell. -/
def crmYES (r : Row) : Bool :=
  match getCell r "CURRENT Role Mention" with
  | Value.str s => ("YES".toList).isPrefixOf s.toList
  | _ => false

/-- Split a character list at every dash (model of `str.split('-')`). -/
def splitDash : List Char → List (List Char)
  | [] => [[]]
  | c :: rest =>
    match splitDash rest with
    | [] => [[]]
    | h :: t => if c = '-' then [] :: h :: t else (c :: h) :: t

/-- Parse an ISO `YYYY-MM-DD` date (the modelled fragment of
`pd.to_datetime`); out-of-range components and other shapes give NA. -/
def parseISO (s : String) : Option (Nat × Nat × Nat) :=
  match splitDash s.toList with
  | [y, m, d] =>
    match parseDigits y, parseDigits m, parseDigits d with
    | some yn, some mn, some dn =>
      if 1 ≤ mn ∧ mn ≤ 12 ∧ 1 ≤ dn ∧ dn ≤ 31 then some (yn, mn, dn) else none
    | _, _, _ => none
  | _ => none

/-- Total order on parsed dates via the obvious encoding. -/
def encDate (t : Nat × Nat × Nat) : Nat :=
  t.1 * 10000 + t.2.1 * 100 + t.2.2

/-- Left-pad a numeral with zeros. -/
def padNum (n : Nat) (len : Nat) : String :=
  let s := toString n
  ⟨List.replicate (len - s.length) '0'⟩ ++ s

/-- `strftime('%Y-%m-%d')`. -/
def formatDate (t : Nat × Nat × Nat) : String :=
  padNum t.1 4 ++ "-" ++ padNum t.2.1 2 ++ "-" ++ padNum t.2.2 2

/-- `pd.to_datetime(errors='coerce')` on one cell (string cells on the ISO
fragment; everything else NA). -/
def parseDateCell (v : Value) : Option (Nat × Nat × Nat) :=
  match v with
  | Value.str s => parseISO s
  | _ => none

/-- `df['Found Date'] > after_dt` on one row (NA compares False). -/
def dateAfter (t : Nat × Nat × Nat) (r : Row) : Bool :=
  match parseDateCell (getCell r "Found Date") with
  | some u => decide (encDate t < encDate u)
  | none => false

/-- Write the filtered datetime column back as `YYYY-MM-DD` strings
(`dt.strftime`); rows reaching this point parsed successfully. -/
def setFoundStr (r : Row) : Row :=
  match parseDateCell (getCell r "Found Date") with
  | some u => setCell r "Found Date" (Value.str (formatDate u))
  | none => setCell r "Found Date" Value.null

/-- Result record of `append_profiles_to_csv` (`added` and
`skipped_duplicates` are computed by subtraction and can be negative when the
pre-existing file itself contained duplicates). -/
structure AppendResult where
  added : Int
  skipped_duplicates : Int
  total_profiles : Nat
deriving DecidableEq, Repr

/-- Normalisation of the dedupe column before duplicate removal:
`combined_df[dc] = combined_df[dc].astype(str).str.strip()` on one row. -/
def normalizeRow (dc : String) (r : Row) : Row :=
  setCell r dc (Value.str (pyStrip (pyStr (getCell r dc))))

/-- `drop_duplicates(subset=[dc], keep='first')`: keep a row when its key was
not seen in an earlier row. -/
def dedupFirstAux (key : Row → Value) : List Row → List Value → List Row
  | [], _ => []
  | r :: rs, seen =>
    if key r ∈ seen then dedupFirstAux key rs seen
    else r :: dedupFirstAux key rs (key r :: seen)

/-- `drop_duplicates(subset=[dc], keep='last')`: keep a row when its key does
not recur in a later row. -/
def dedupLastF (key : Row → Value) : List Row → List Row
  | [] => []
  | r :: rs => if key r ∈ rs.map key then dedupLastF key rs else r :: dedupLastF key rs

/-- The dedupe key of a row. -/
def keyOf (dc : String) (r : Row) : Value :=
  getCell r dc

/-- `append_profiles_to_csv`: load the existing file (absent = empty,
unparsable = abort re-raising the parse error, leaving the file untouched),
concatenate existing-then-new, normalise and first-wins deduplicate on the
dedupe column when present, reindex to the canonical column order and write.
Returns the result value and the file state after the call. -/
def appendRun (st : FileState) (profiles : List Row) (dc : String) :
    Except String AppendResult × FileState :=
  let new_df : DF := ⟨unionKeys profiles, profiles⟩
  match st with
  | some (Except.error e) => (Except.error e, st)
  | some (Except.ok existing) =>
    let columns := existing.cols
    let combined := dfConcat existing new_df
    let deduped :=
      if dc ∈ combined.cols then
        dedupFirstAux (keyOf dc) (combined.rows.map (normalizeRow dc)) []
      else combined.rows
    let finalCount := deduped.length
    let added : Int := (finalCount : Int) - (existing.rows.length : Int)
    let skipped : Int := (profiles.length : Int) - added
    (Except.ok ⟨added, skipped, finalCount⟩,
     some (Except.ok ⟨columns, deduped.map (projectRow columns)⟩))
  | none =>
    let columns := new_df.cols
    let deduped :=
      if dc ∈ new_df.cols then
        dedupFirstAux (keyOf dc) (new_df.rows.map (normalizeRow dc)) []
      else new_df.rows
    let finalCount := deduped.length
    let added : Int := (finalCount : Int)
    let skipped : Int := (profiles.length : Int) - added
    (Except.ok ⟨added, skipped, finalCount⟩,
     some (Except.ok ⟨columns, deduped.map (projectRow columns)⟩))

/-- Canonical column order an append against `st` reindexes to: the existing
file's header, or the batch's key set when the file is absent. -/
def canonicalCols (st : FileState) (profiles : List Row) : List String :=
  match st with
  | some (Except.ok df) => df.cols
  | _ => unionKeys profiles

/-- One optional filter criterion of `filter_profiles`: inactive criteria pass
rows through; an active criterion first evaluates `df[needed]`, raising a
`KeyError` when the column is absent, then keeps the rows satisfying the
predicate. -/
def stageOpt (cols : List String) (needed : String) (pOpt : Option (Row → Bool))
    (rows : List Row) : Except String (List Row) :=
  match pOpt with
  | none => Except.ok rows
  | some p =>
    if needed ∈ cols then Except.ok (rows.filter p)
    else Except.error ("KeyError: " ++ needed)

/-- The `found_after_date` criterion: truthy strings only; `df['Found Date']`
raises when the column is absent; an unparsable threshold raises in
`pd.to_datetime`; otherwise keep rows strictly after the threshold and render
their dates back to `YYYY-MM-DD`. -/
def stageFound (cols : List String) (fad : Option String) (rows : List Row) :
    Except String (List Row) :=
  match fad with
  | none => Except.ok rows
  | some s =>
    if s = "" then Except.ok rows
    else if "Found Date" ∈ cols then
      match parseISO s with
      | some t => Except.ok ((rows.filter (dateAfter t)).map setFoundStr)
      | none => Except.error "to_datetime: unparsable date"
    else Except.error "KeyError: Found Date"

/-- The location/company list criteria are active exactly on non-empty lists
(Python truthiness). -/
def listPred (column : String) (o : Option (List String)) : Option (Row → Bool) :=
  match o with
  | some (l :: ls) => some (fun r => strContainsRegexCI (l :: ls) (getCell r column))
  | _ => none

/-- `filter_profiles` up to (and including) the sort: returns the column list
and the processed rows, or the raised error. -/
def filterCore (st : FileState) (min_score max_score : Option Int)
    (locations companies : Option (List String)) (current_role_only : Option Bool)
    (found_after_date : Option String) : Except String (List String × List Row) :=
  match st with
  | none => Except.ok ([], [])
  | some (Except.error e) => Except.error e
  | some (Except.ok df) =>
    let cols := df.cols
    let rows0 := if "v2 Score" ∈ cols then df.rows.map coerceScore else df.rows
    match stageOpt cols "v2 Score" (min_score.map scoreGEb) rows0 with
    | Except.error e => Except.error e
    | Except.ok rows1 =>
    match stageOpt cols "v2 Score" (max_score.map scoreLEb) rows1 with
    | Except.error e => Except.error e
    | Except.ok rows2 =>
    match stageOpt cols "Location" (listPred "Location" locations) rows2 with
    | Except.error e => Except.error e
    | Except.ok rows3 =>
    match stageOpt cols "Company" (listPred "Company" companies) rows3 with
    | Except.error e => Except.error e
    | Except.ok rows4 =>
    match stageOpt cols "CURRENT Role Mention"
        (match current_role_only with
         | some true => some crmYES
         | _ => none) rows4 with
    | Except.error e => Except.error e
    | Except.ok rows5 =>
    match stageFound cols found_after_date rows5 with
    | Except.error e => Except.error e
    | Except.ok rows6 =>
      let rows7 := if "v2 Score" ∈ cols then sortDesc rows6 else rows6
      Except.ok (cols, rows7)

/-- `filter_profiles`: the staged filters, the score sort, the (truthy) limit
truncation, and the `fillna("")` record rendering. -/
def filterRun (st : FileState) (min_score max_score : Option Int)
    (locations companies : Option (List String)) (current_role_only : Option Bool)
    (found_after_date : Option String) (limit : Option Nat) : Except String (List Row) :=
  match filterCore st min_score max_score locations companies current_role_only found_after_date with
  | Except.error e => Except.error e
  | Except.ok (cols, rows) => Except.ok ((applyLimit limit rows).map (fillRow cols))

/-- Count of occurrences of one rendered key among the rendered values. -/
def countOcc (ss : List String) (s : String) : Nat :=
  (ss.filter (fun t => t == s)).length

/-- Distinct elements in first-appearance order. -/
def distinctFirst (ss : List String) : List String :=
  ss.foldl (fun acc s => if s ∈ acc then acc else acc ++ [s]) []

/-- Insertion step of the descending count sort for `value_counts`. -/
def insertCount (p : String × Nat) : List (String × Nat) → List (String × Nat)
  | [] => [p]
  | q :: qs => if q.2 < p.2 then p :: q :: qs else q :: insertCount p qs

/-- Sort counted keys by decreasing count (modelled deterministically; ties
keep first-appearance order). -/
def sortCountDesc : List (String × Nat) → List (String × Nat)
  | [] => []
  | p :: ps => insertCount p (sortCountDesc ps)

/-- `Series.value_counts().to_dict()` with the keys rendered through `str`:
NA values are dropped, distinct values are counted and listed by decreasing
frequency. -/
def valueCounts (vs : List Value) : List (String × Nat) :=
  let ss := (vs.filter (fun v => v != Value.null)).map pyStr
  sortCountDesc ((distinctFirst ss).map (fun k => (k, countOcc ss k)))

/-- Python `round(x, 2)` on the modelled rationals (half rounded up; the
claims do not exercise the tie-breaking rule). -/
def round2 (q : ℚ) : ℚ :=
  (Rat.floor (q * 100 + 1 / 2) : ℚ) / 100

/-- Result record of `get_csv_stats`; `avg_score = none` models the NaN mean
of an all-NA score column. -/
structure Stats where
  total_profiles : Nat
  avg_score : Option ℚ
  score_distribution : List (String × Nat)
  location_breakdown : List (String × Nat)
  company_size_breakdown : List (String × Nat)
  found_date_earliest : String
  found_date_latest : String
  current_role_count : Nat
deriving DecidableEq, Repr

/-- Earliest parsed date (`found_dates.min()` skips NA). -/
def minDateL (ds : List (Nat × Nat × Nat)) : Option (Nat × Nat × Nat) :=
  ds.foldl (fun acc d => match acc with
    | none => some d
    | some m => if encDate d < encDate m then some d else some m) none

/-- Latest parsed date (`found_dates.max()` skips NA). -/
def maxDateL (ds : List (Nat × Nat × Nat)) : Option (Nat × Nat × Nat) :=
  ds.foldl (fun acc d => match acc with
    | none => some d
    | some m => if encDate m < encDate d then some d else some m) none

/-- `get_csv_stats`: a missing file yields the explicit error value; the
score block is presence-guarded (absent column: average 0, empty bands), but
`Location`, `Company Size`, `Found Date` and `CURRENT Role Mention` are
accessed unconditionally and raise a `KeyError` when absent. -/
def statsRun (st : FileState) : Except String Stats :=
  match st with
  | none => Except.error "File not found"
  | some (Except.error e) => Except.error e
  | some (Except.ok df) =>
    let total := df.rows.length
    let rowsM := if "v2 Score" ∈ df.cols then df.rows.map coerceScore else df.rows
    let scorePart : Option ℚ × List (String × Nat) :=
      if "v2 Score" ∈ df.cols then
        let scores := rowsM.filterMap (fun r => match getCell r "v2 Score" with
          | Value.int n => some n
          | _ => none)
        let avg := if scores.length = 0 then none
          else some (round2 ((scores.sum : ℚ) / (scores.length : ℚ)))
        (avg,
         [("20+", (rowsM.filter (scoreGEb 20)).length),
          ("15-19", (rowsM.filter (fun r => scoreGEb 15 r && scoreLEb 19 r)).length),
          ("10-14", (rowsM.filter (fun r => scoreGEb 10 r && scoreLEb 14 r)).length),
          ("<10", (rowsM.filter (fun r => match getCell r "v2 Score" with
            | Value.int n => decide (n < 10)
            | _ => false)).length)])
      else (some 0, [])
    if "Location" ∈ df.cols then
      if "Company Size" ∈ df.cols then
        if "Found Date" ∈ df.cols then
          if "CURRENT Role Mention" ∈ df.cols then
            let dates := rowsM.filterMap (fun r => parseDateCell (getCell r "Found Date"))
            Except.ok
              { total_profiles := total
                avg_score := scorePart.1
                score_distribution := scorePart.2
                location_breakdown :=
                  (valueCounts (rowsM.map (fun r => getCell r "Location"))).take 10
                company_size_breakdown :=
                  valueCounts (rowsM.map (fun r => getCell r "Company Size"))
                found_date_earliest :=
                  match minDateL dates with
                  | some d => formatDate d
                  | none => ""
                found_date_latest :=
                  match maxDateL dates with
                  | some d => formatDate d
                  | none => ""
                current_role_count := (rowsM.filter crmYES).length }
          else Except.error "KeyError: CURRENT Role Mention"
        else Except.error "KeyError: Found Date"
      else Except.error "KeyError: Company Size"
    else Except.error "KeyError: Location"

/-- Result record of `export_segment`. -/
structure ExportResult where
  profiles_exported : Nat
  output_path : String
  columns_included : List String
deriving DecidableEq, Repr

/-- POSIX absoluteness of a path string (leading slash). -/
def isAbs (s : String) : Bool :=
  match s.toList with
  | c :: _ => c == '/'
  | [] => false

/-- `Path(p).absolute()`: an absolute path is returned unchanged, a relative
one is resolved against the working directory. -/
def absolutize (cwd p : String) : String :=
  if isAbs p then p else cwd ++ "/" ++ p

/-- `export_segment`: run the filter (min_score / locations / companies only),
return early — echoing the destination string verbatim and writing nothing —
on zero matches, otherwise project onto the requested columns that exist and
write the new frame.  The second component is the performed file write. -/
def exportRun (cwd : String) (src : FileState) (output_csv : String)
    (min_score : Option Int) (locations companies : Option (List String))
    (columns : Option (List String)) : Except String (ExportResult × Option DF) :=
  match filterRun src min_score none locations companies none none none with
  | Except.error e => Except.error e
  | Except.ok profiles =>
    if profiles.isEmpty then
      Except.ok (⟨0, output_csv, []⟩, none)
    else
      let cols0 := unionKeys profiles
      let cols1 :=
        match columns with
        | some (c :: cs) => (c :: cs).filter (fun c' => decide (c' ∈ cols0))
        | _ => cols0
      let outRows := profiles.map (projectRow cols1)
      Except.ok (⟨outRows.length, absolutize cwd output_csv, cols1⟩,
                 some ⟨cols1, outRows⟩)

/-- Default searched columns of `search_profiles`. -/
def defaultSearchCols : List String :=
  ["Headline", "Company", "Match Reason", "CURRENT Role Mention"]

/-- Searched columns actually used: the explicit list when truthy (non-empty),
else the defaults; in either case restricted to the columns present. -/
def effectiveSearchCols (present : List String) (columns : Option (List String)) : List String :=
  (match columns with
   | some (c :: cs) => c :: cs
   | _ => defaultSearchCols).filter (fun c => decide (c ∈ present))

/-- One cell of the search mask:
`df[col].astype(str).str.contains(term, case=case_sensitive, regex=False)` —
the cell is rendered by `str()` first (NA becomes "nan"), then scanned for the
term literally, case-insensitively unless `case_sensitive`. -/
def searchMatchCell (term : String) (cs : Bool) (v : Value) : Bool :=
  if cs then containsSub term.toList (pyStr v).toList
  else containsCI term (pyStr v)

/-- The accumulated search mask of one row: any searched column matches. -/
def rowMatchesSearch (term : String) (cs : Bool) (colsToSearch : List String) (r : Row) : Bool :=
  colsToSearch.any (fun c => searchMatchCell term cs (getCell r c))

/-- `search_profiles`: missing file is an empty result; an unparsable file
propagates the parse error; otherwise mask, score-sort when the score column
exists (coercing the kept rows), truthy-limit truncation, and `fillna("")`
record rendering. -/
def searchRun (st : FileState) (term : String) (columns : Option (List String))
    (case_sensitive : Bool) (limit : Option Nat) : Except String (List Row) :=
  match st with
  | none => Except.ok []
  | some (Except.error e) => Except.error e
  | some (Except.ok df) =>
    let searchCols := effectiveSearchCols df.cols columns
    let matched := df.rows.filter (rowMatchesSearch term case_sensitive searchCols)
    let matched2 :=
      if "v2 Score" ∈ df.cols then sortDesc (matched.map coerceScore) else matched
    Except.ok ((applyLimit limit matched2).map (fillRow df.cols))

/-- Result record of `deduplicate_csv`. -/
structure DedupResult where
  original_count : Nat
  duplicates_removed : Nat
  final_count : Nat
deriving DecidableEq, Repr

/-- `deduplicate_csv`: missing file is the explicit error value; when the
dedupe column exists its values are normalised to stripped strings and
duplicates removed per the keep policy (`first` or `last`; any other policy
raises inside pandas); the result frame is written back over the source.  The
second component is the written frame. -/
def dedupeRun (st : FileState) (dc : String) (keep : String) :
    Except String (DedupResult × DF) :=
  match st with
  | none => Except.error "File not found"
  | some (Except.error e) => Except.error e
  | some (Except.ok df) =>
    let orig := df.rows.length
    if dc ∈ df.cols then
      let rows1 := df.rows.map (normalizeRow dc)
      match (if keep = "first" then some (dedupFirstAux (keyOf dc) rows1 [])
             else if keep = "last" then some (dedupLastF (keyOf dc) rows1)
             else none) with
      | some rows2 =>
        Except.ok (⟨orig, orig - rows2.length, rows2.length⟩, ⟨df.cols, rows2⟩)
      | none => Except.error "ValueError: keep must be either first, last or False"
    else
      Except.ok (⟨orig, 0, orig⟩, df)

theorem getCell_setCell_self (r : Row) (c : String) (v : Value) :
    getCell (setCell r c v) c = v := by
  simp [getCell, setCell]

theorem filterNe_cons (q : String × Value) (rest : List (String × Value)) (c : String) :
    (q :: rest).filter (fun p => decide (p.1 ≠ c)) =
      if q.1 = c then rest.filter (fun p => decide (p.1 ≠ c))
      else q :: rest.filter (fun p => decide (p.1 ≠ c)) := by
  by_cases hq : q.1 = c <;> simp [List.filter_cons, hq]

theorem getCell_filter_ne (r : Row) (c c' : String) (h : c' ≠ c) :
    getCell (r.filter (fun p => decide (p.1 ≠ c))) c' = getCell r c' := by
  induction r with
  | nil => rfl
  | cons q rest ih =>
    rw [filterNe_cons]
    by_cases hq : q.1 = c
    · rw [if_pos hq, ih]
      have hnc : ¬ q.1 = c' := by rw [hq]; exact fun e => h e.symm
      simp only [getCell, if_neg hnc]
    · rw [if_neg hq]
      by_cases hq' : q.1 = c'
      · simp only [getCell, if_pos hq']
      · simp only [getCell, if_neg hq', ih]

theorem getCell_setCell_ne (r : Row) (c c' : String) (v : Value) (h : c' ≠ c) :
    getCell (setCell r c v) c' = getCell r c' := by
  have hne : ¬ c = c' := fun e => h e.symm
  show (if c = c' then v else getCell (r.filter (fun p => decide (p.1 ≠ c))) c') = getCell r c'
  rw [if_neg hne, getCell_filter_ne r c c' h]

theorem getCell_projectRow (cols : List String) (r : Row) (c : String) (h : c ∈ cols) :
    getCell (projectRow cols r) c = getCell r c := by
  induction cols with
  | nil => cases h
  | cons d ds ih =>
    by_cases hdc : d = c
    · subst hdc; simp [projectRow, getCell]
    · rcases List.mem_cons.mp h with h1 | h2
      · exact absurd h1.symm hdc
      · simp only [projectRow, List.map_cons, getCell, if_neg hdc]
        exact ih h2

theorem getCell_fillRow (cols : List String) (r : Row) (c : String) (h : c ∈ cols) :
    getCell (fillRow cols r) c = fillVal (getCell r c) := by
  induction cols with
  | nil => cases h
  | cons d ds ih =>
    by_cases hdc : d = c
    · subst hdc; simp [fillRow, getCell]
    · rcases List.mem_cons.mp h with h1 | h2
      · exact absurd h1.symm hdc
      · simp only [fillRow, List.map_cons, getCell, if_neg hdc]
        exact ih h2

theorem dropWhile_dropWhile (p : Char → Bool) (l : List Char) :
    (l.dropWhile p).dropWhile p = l.dropWhile p := by
  induction l with
  | nil => rfl
  | cons a t ih =>
    by_cases ha : p a = true
    · simp [List.dropWhile_cons, ha, ih]
    · simp [List.dropWhile_cons, ha]

theorem dropWhile_eq_drop (p : Char → Bool) (l : List Char) :
    ∃ k, l.dropWhile p = l.drop k := by
  induction l with
  | nil => exact ⟨0, rfl⟩
  | cons a t ih =>
    by_cases ha : p a = true
    · obtain ⟨k, hk⟩ := ih
      exact ⟨k + 1, by simp [List.dropWhile_cons, ha, hk]⟩
    · exact ⟨0, by simp [List.dropWhile_cons, ha]⟩

theorem dropWhile_take_of_fix (p : Char → Bool) (y : List Char)
    (hy : y.dropWhile p = y) (m : Nat) :
    (y.take m).dropWhile p = y.take m := by
  cases y with
  | nil => simp
  | cons a t =>
    have ha : p a = false := by
      by_cases hc : p a = true
      · exfalso
        have h2 : t.dropWhile p = a :: t := by simpa [List.dropWhile_cons, hc] using hy
        have h3 : (t.dropWhile p).length ≤ t.length := (List.dropWhile_sublist p).length_le
        rw [h2] at h3
        simp at h3
      · simpa using hc
    cases m with
    | zero => simp
    | succ m => simp [List.take, List.dropWhile_cons, ha]

theorem stripChars_fix (l : List Char) :
    (stripChars l).dropWhile Char.isWhitespace = stripChars l := by
  unfold stripChars
  set p := Char.isWhitespace
  set y := l.dropWhile p with hy
  have hyfix : y.dropWhile p = y := dropWhile_dropWhile p l
  obtain ⟨k, hk⟩ := dropWhile_eq_drop p y.reverse
  rw [hk]
  have : (y.reverse.drop k).reverse = y.take (y.length - k) := by
    rw [List.reverse_drop, List.reverse_reverse, List.length_reverse]
  rw [this]
  exact dropWhile_take_of_fix p y hyfix _

theorem stripChars_idem (l : List Char) :
    stripChars (stripChars l) = stripChars l := by
  conv_lhs => rw [stripChars, stripChars_fix l]
  set p := Char.isWhitespace
  set y := l.dropWhile p with hy
  show ((stripChars l).reverse.dropWhile p).reverse = stripChars l
  have h1 : (stripChars l).reverse = (y.reverse).dropWhile p := by
    unfold stripChars
    rw [List.reverse_reverse]
  rw [h1, dropWhile_dropWhile]
  unfold stripChars
  rfl

theorem pyStrip_idem (s : String) : pyStrip (pyStrip s) = pyStrip s :=
  congrArg String.mk (stripChars_idem s.toList)

theorem pyStr_str (s : String) : pyStr (Value.str s) = s := rfl

theorem keyOf_normalizeRow (dc : String) (r : Row) :
    keyOf dc (normalizeRow dc r) = Value.str (pyStrip (pyStr (getCell r dc))) := by
  simp [keyOf, normalizeRow, getCell_setCell_self]

theorem keyOf_normalizeRow_fix (dc : String) (r : Row) (t : String)
    (h : getCell r dc = Value.str (pyStrip t)) :
    keyOf dc (normalizeRow dc r) = getCell r dc := by
  rw [keyOf_normalizeRow, h, pyStr_str, pyStrip_idem]

theorem mem_map_dedupFirstAux (f : Row → Value) (l : List Row) (seen : List Value) (v : Value) :
    v ∈ (dedupFirstAux f l seen).map f ↔ v ∈ l.map f ∧ v ∉ seen := by
  induction l generalizing seen with
  | nil => simp [dedupFirstAux]
  | cons r rs ih =>
    by_cases hr : f r ∈ seen
    · rw [dedupFirstAux, if_pos hr, ih]
      simp only [List.map_cons, List.mem_cons]
      constructor
      · rintro ⟨h1, h2⟩
        exact ⟨Or.inr h1, h2⟩
      · rintro ⟨h1 | h1, h2⟩
        · exact absurd (h1 ▸ hr) h2
        · exact ⟨h1, h2⟩
    · rw [dedupFirstAux, if_neg hr]
      simp only [List.map_cons, List.mem_cons, ih, List.mem_cons]
      constructor
      · rintro (h1 | ⟨h1, h2⟩)
        · exact ⟨Or.inl h1, h1 ▸ hr⟩
        · exact ⟨Or.inr h1, fun hv => h2 (Or.inr hv)⟩
      · rintro ⟨h1 | h1, h2⟩
        · exact Or.inl h1
        · by_cases hv : v = f r
          · exact Or.inl hv
          · refine Or.inr ⟨h1, ?_⟩
            rintro (e | m)
            · exact hv e
            · exact h2 m

theorem nodup_map_dedupFirstAux (f : Row → Value) (l : List Row) (seen : List Value) :
    ((dedupFirstAux f l seen).map f).Nodup := by
  induction l generalizing seen with
  | nil => simp [dedupFirstAux]
  | cons r rs ih =>
    by_cases hr : f r ∈ seen
    · rw [dedupFirstAux, if_pos hr]
      exact ih seen
    · rw [dedupFirstAux, if_neg hr]
      simp only [List.map_cons, List.nodup_cons]
      refine ⟨?_, ih _⟩
      intro hmem
      rw [mem_map_dedupFirstAux] at hmem
      exact hmem.2 (List.mem_cons_self _ _)

theorem dedupFirstAux_eq_nil (f : Row → Value) (l : List Row) (seen : List Value)
    (h : ∀ r ∈ l, f r ∈ seen) : dedupFirstAux f l seen = [] := by
  induction l generalizing seen with
  | nil => rfl
  | cons r rs ih =>
    rw [dedupFirstAux, if_pos (h r (List.mem_cons_self _ _))]
    exact ih seen (fun x hx => h x (List.mem_cons_of_mem _ hx))

theorem dedupFirstAux_append (f : Row → Value) (l1 l2 : List Row) (seen : List Value)
    (h1 : (l1.map f).Nodup) (h2 : ∀ v ∈ l1.map f, v ∉ seen)
    (h3 : ∀ r ∈ l2, f r ∈ l1.map f ∨ f r ∈ seen) :
    dedupFirstAux f (l1 ++ l2) seen = l1 := by
  induction l1 generalizing seen with
  | nil =>
    simp only [List.nil_append]
    refine dedupFirstAux_eq_nil f l2 seen (fun r hr => ?_)
    rcases h3 r hr with hm | hs
    · exact absurd hm (by simp)
    · exact hs
  | cons r rs ih =>
    have h1' : (f r :: rs.map f).Nodup := by rw [List.map_cons] at h1; exact h1
    have hnodup := List.nodup_cons.mp h1'
    have hr : f r ∉ seen := h2 (f r) (by simp)
    rw [List.cons_append, dedupFirstAux, if_neg hr]
    congr 1
    refine ih _ hnodup.2 ?_ ?_
    · intro v hv hc
      rcases List.mem_cons.mp hc with e | m
      · exact hnodup.1 (e ▸ hv)
      · exact h2 v (by simp [hv]) m
    · intro x hx
      rcases h3 x hx with hm | hs
      · rw [List.map_cons] at hm
        rcases List.mem_cons.mp hm with e | m
        · exact Or.inr (List.mem_cons.mpr (Or.inl e))
        · exact Or.inl m
      · exact Or.inr (List.mem_cons.mpr (Or.inr hs))

theorem mem_of_mem_dedupFirstAux (f : Row → Value) (l : List Row) (seen : List Value)
    (r : Row) (h : r ∈ dedupFirstAux f l seen) : r ∈ l := by
  induction l generalizing seen with
  | nil => simp [dedupFirstAux] at h
  | cons q rs ih =>
    by_cases hq : f q ∈ seen
    · rw [dedupFirstAux, if_pos hq] at h
      exact List.mem_cons_of_mem _ (ih _ h)
    · rw [dedupFirstAux, if_neg hq] at h
      rcases List.mem_cons.mp h with e | m
      · exact e ▸ List.mem_cons_self _ _
      · exact List.mem_cons_of_mem _ (ih _ m)

theorem length_filter_key_le_one (f : Row → Value) (l : List Row) (v : Value)
    (h : (l.map f).Nodup) :
    (l.filter (fun r => f r == v)).length ≤ 1 := by
  induction l with
  | nil => simp
  | cons r rs ih =>
    have h1' : (f r :: rs.map f).Nodup := by rw [List.map_cons] at h; exact h
    have h' := List.nodup_cons.mp h1'
    simp only [List.filter_cons]
    by_cases hv : f r = v
    · rw [if_pos (by simp [hv])]
      have hnil : rs.filter (fun r => f r == v) = [] := by
        rw [List.filter_eq_nil_iff]
        intro x hx hc
        have hxv : f x = v := by simpa using hc
        exact h'.1 (by rw [hv, ← hxv]; exact List.mem_map_of_mem f hx)
      rw [hnil]
      simp
    · rw [if_neg (by simp [hv])]
      exact ih h'.2

theorem keyOf_projectRow (cols : List String) (dc : String) (h : dc ∈ cols) (r : Row) :
    keyOf dc (projectRow cols r) = keyOf dc r := by
  simp [keyOf, getCell_projectRow cols r dc h]

theorem dedup_project_props (B P : List Row) (C : List String) (dc : String)
    (hdc : dc ∈ C) (hP : ∀ p ∈ P, p ∈ B) :
    (∀ r ∈ (dedupFirstAux (keyOf dc) (B.map (normalizeRow dc)) []).map (projectRow C),
        ∃ t, getCell r dc = Value.str (pyStrip t)) ∧
    (((dedupFirstAux (keyOf dc) (B.map (normalizeRow dc)) []).map (projectRow C)).map
        (keyOf dc)).Nodup ∧
    (∀ p ∈ P, Value.str (pyStrip (pyStr (getCell p dc))) ∈
        ((dedupFirstAux (keyOf dc) (B.map (normalizeRow dc)) []).map (projectRow C)).map
          (keyOf dc)) := by
  have hkeys :
      ((dedupFirstAux (keyOf dc) (B.map (normalizeRow dc)) []).map (projectRow C)).map
          (keyOf dc) =
        (dedupFirstAux (keyOf dc) (B.map (normalizeRow dc)) []).map (keyOf dc) := by
    rw [List.map_map]
    exact List.map_congr_left (fun r hr => by
      simp [Function.comp, keyOf_projectRow C dc hdc])
  refine ⟨?_, ?_, ?_⟩
  · intro r' hr'
    rcases List.mem_map.mp hr' with ⟨r2, hr2, hr2eq⟩
    have hr2B : r2 ∈ B.map (normalizeRow dc) := mem_of_mem_dedupFirstAux _ _ _ _ hr2
    rcases List.mem_map.mp hr2B with ⟨b, hb, hbeq⟩
    refine ⟨pyStr (getCell b dc), ?_⟩
    have h1 : getCell r' dc = getCell r2 dc := by
      rw [← hr2eq]
      exact getCell_projectRow C r2 dc hdc
    rw [h1, ← hbeq]
    exact keyOf_normalizeRow dc b
  · rw [hkeys]
    exact nodup_map_dedupFirstAux _ _ _
  · intro p hp
    rw [hkeys, mem_map_dedupFirstAux]
    refine ⟨?_, by simp⟩
    have : keyOf dc (normalizeRow dc p) = Value.str (pyStrip (pyStr (getCell p dc))) :=
      keyOf_normalizeRow dc p
    rw [← this]
    exact List.mem_map_of_mem _ (List.mem_map_of_mem _ (hP p hp))

theorem appendRun_none_eq (P : List Row) (dc : String) (hdc : dc ∈ unionKeys P) :
    appendRun none P dc =
      (Except.ok ⟨((dedupFirstAux (keyOf dc) (P.map (normalizeRow dc)) []).length : Int),
        (P.length : Int) - ((dedupFirstAux (keyOf dc) (P.map (normalizeRow dc)) []).length : Int),
        (dedupFirstAux (keyOf dc) (P.map (normalizeRow dc)) []).length⟩,
       some (Except.ok ⟨unionKeys P,
         (dedupFirstAux (keyOf dc) (P.map (normalizeRow dc)) []).map (projectRow (unionKeys P))⟩)) := by
  simp only [appendRun]
  rw [if_pos hdc]

theorem appendRun_some_eq (df0 : DF) (P : List Row) (dc : String)
    (hdc : dc ∈ (dfConcat df0 ⟨unionKeys P, P⟩).cols) :
    appendRun (some (Except.ok df0)) P dc =
      (Except.ok ⟨((dedupFirstAux (keyOf dc) ((df0.rows ++ P).map (normalizeRow dc)) []).length : Int)
          - (df0.rows.length : Int),
        (P.length : Int) -
          (((dedupFirstAux (keyOf dc) ((df0.rows ++ P).map (normalizeRow dc)) []).length : Int)
            - (df0.rows.length : Int)),
        (dedupFirstAux (keyOf dc) ((df0.rows ++ P).map (normalizeRow dc)) []).length⟩,
       some (Except.ok ⟨df0.cols,
         (dedupFirstAux (keyOf dc) ((df0.rows ++ P).map (normalizeRow dc)) []).map
           (projectRow df0.cols)⟩)) := by
  simp only [appendRun]
  rw [if_pos hdc]
  rfl

theorem appendRun_fresh (st : FileState) (P : List Row) (dc : String)
    (hvalid : st = none ∨ ∃ df0, st = some (Except.ok df0))
    (hdc : dc ∈ canonicalCols st P) :
    ∃ res1 df1,
      appendRun st P dc = (Except.ok res1, some (Except.ok df1)) ∧
      res1.total_profiles = df1.rows.length ∧
      (dc ∈ df1.cols) ∧
      (∀ r ∈ df1.rows, ∃ t, getCell r dc = Value.str (pyStrip t)) ∧
      (df1.rows.map (keyOf dc)).Nodup ∧
      (∀ p ∈ P, Value.str (pyStrip (pyStr (getCell p dc))) ∈ df1.rows.map (keyOf dc)) := by
  rcases hvalid with hnone | ⟨df0, hok⟩
  · subst hnone
    have hdc' : dc ∈ unionKeys P := hdc
    have heq := appendRun_none_eq P dc hdc'
    have hprops := dedup_project_props P P (unionKeys P) dc hdc' (fun p hp => hp)
    refine ⟨_, _, heq, ?_, hdc', hprops.1, hprops.2.1, hprops.2.2⟩
    simp
  · subst hok
    have hdc' : dc ∈ df0.cols := hdc
    have hccols : dc ∈ (dfConcat df0 ⟨unionKeys P, P⟩).cols :=
      List.mem_append_left _ hdc'
    have heq := appendRun_some_eq df0 P dc hccols
    have hprops := dedup_project_props (df0.rows ++ P) P df0.cols dc hdc'
      (fun p hp => List.mem_append_right _ hp)
    refine ⟨_, _, heq, ?_, hdc', hprops.1, hprops.2.1, hprops.2.2⟩
    simp

theorem appendRun_absorbed (df1 : DF) (P : List Row) (dc : String)
    (hdc : dc ∈ df1.cols)
    (hkeys : ∀ r ∈ df1.rows, ∃ t, getCell r dc = Value.str (pyStrip t))
    (hnodup : (df1.rows.map (keyOf dc)).Nodup)
    (hsub : ∀ p ∈ P, Value.str (pyStrip (pyStr (getCell p dc))) ∈ df1.rows.map (keyOf dc)) :
    (appendRun (some (Except.ok df1)) P dc).1 =
      Except.ok ⟨0, (P.length : Int), df1.rows.length⟩ := by
  have hccols : dc ∈ (dfConcat df1 ⟨unionKeys P, P⟩).cols :=
    List.mem_append_left _ hdc
  have hAkeys : (df1.rows.map (normalizeRow dc)).map (keyOf dc) = df1.rows.map (keyOf dc) := by
    rw [List.map_map]
    refine List.map_congr_left (fun r hr => ?_)
    rcases hkeys r hr with ⟨t, ht⟩
    simp only [Function.comp]
    exact keyOf_normalizeRow_fix dc r t ht
  have habsorb :
      dedupFirstAux (keyOf dc)
        ((df1.rows ++ P).map (normalizeRow dc)) [] = df1.rows.map (normalizeRow dc) := by
    rw [List.map_append]
    refine dedupFirstAux_append (keyOf dc) _ _ [] ?_ (by simp) ?_
    · rw [hAkeys]; exact hnodup
    · intro x hx
      rcases List.mem_map.mp hx with ⟨p, hp, hpeq⟩
      refine Or.inl ?_
      rw [hAkeys, ← hpeq, keyOf_normalizeRow]
      exact hsub p hp
  rw [appendRun_some_eq df1 P dc hccols, habsorb]
  simp

theorem dedupeRun_first_eq (df : DF) (dc : String) (hdc : dc ∈ df.cols) :
    dedupeRun (some (Except.ok df)) dc "first" =
      Except.ok (⟨df.rows.length,
        df.rows.length - (dedupFirstAux (keyOf dc) (df.rows.map (normalizeRow dc)) []).length,
        (dedupFirstAux (keyOf dc) (df.rows.map (normalizeRow dc)) []).length⟩,
        ⟨df.cols, dedupFirstAux (keyOf dc) (df.rows.map (normalizeRow dc)) []⟩) := by
  simp only [dedupeRun]
  rw [if_pos hdc]
  simp

/-- C1 (amended): appending the identical batch twice is idempotent in the
claimed sense — `added = 0`, `skipped_duplicates = len(batch)` and
`total_profiles` unchanged on the second call — provided the dedupe column
belongs to the canonical column set (the existing file's columns, or the
batch's columns when the file is absent); the claim fails without that
proviso because no deduplication happens at all then. -/
theorem claim_C1_append_idempotence (st : FileState) (P : List Row) (dc : String)
    (hvalid : st = none ∨ ∃ df0, st = some (Except.ok df0))
    (hdc : dc ∈ canonicalCols st P) :
    ∃ res1 res2,
      (appendRun st P dc).1 = Except.ok res1 ∧
      (appendRun (appendRun st P dc).2 P dc).1 = Except.ok res2 ∧
      res2.added = 0 ∧ res2.skipped_duplicates = (P.length : Int) ∧
      res2.total_profiles = res1.total_profiles := by
  obtain ⟨res1, df1, heq, htot, hdc1, hkeys, hnodup, hsub⟩ := appendRun_fresh st P dc hvalid hdc
  refine ⟨res1, ⟨0, (P.length : Int), df1.rows.length⟩, ?_, ?_, rfl, rfl, ?_⟩
  · rw [heq]
  · rw [heq]
    exact appendRun_absorbed df1 P dc hdc1 hkeys hnodup hsub
  · exact htot.symm

/-- C1 counterexample: with a batch that lacks the dedupe column (and a fresh
file), the second identical append reports `added = 1`, not `0`, and
`total_profiles` grows from 1 to 2 — the claim fails as stated. -/
theorem claim_C1_counterexample :
    (appendRun ((appendRun none [[("A", Value.str "x")]] "LinkedIn URL").2)
        [[("A", Value.str "x")]] "LinkedIn URL").1 =
      Except.ok ⟨1, 0, 2⟩ := by rfl

theorem claim_C1_witness :
    ∃ res1 res2,
      (appendRun none [[("LinkedIn URL", Value.str " x ")]] "LinkedIn URL").1 =
        Except.ok res1 ∧
      (appendRun (appendRun none [[("LinkedIn URL", Value.str " x ")]] "LinkedIn URL").2
          [[("LinkedIn URL", Value.str " x ")]] "LinkedIn URL").1 = Except.ok res2 ∧
      res2.added = 0 ∧ res2.skipped_duplicates = (1 : Int) ∧
      res2.total_profiles = res1.total_profiles :=
  claim_C1_append_idempotence none [[("LinkedIn URL", Value.str " x ")]] "LinkedIn URL"
    (Or.inl rfl) (by decide)

/-- C8: when the destination file exists but cannot be parsed, the append
aborts surfacing that parse error and the file state is unchanged — no write
occurs. -/
theorem claim_C8_parse_error_aborts (e : String) (P : List Row) (dc : String) :
    appendRun (some (Except.error e)) P dc = (Except.error e, some (Except.error e)) := rfl

/-- C9: deduplication persists the normalised dedupe column — every stored
row is the stripped-string normalisation of a source row, NA dedupe values
normalise to the literal string "nan", stored key values are pairwise
distinct (so at most one row with key "nan" survives), and the rows a
successful append writes likewise carry pairwise-distinct stripped-string
keys. -/
theorem claim_C9_normalized_dedupe_column (df : DF) (dc : String) (hdc : dc ∈ df.cols) :
    ∃ res df',
      dedupeRun (some (Except.ok df)) dc "first" = Except.ok (res, df') ∧
      (∀ r' ∈ df'.rows, ∃ r ∈ df.rows, r' = normalizeRow dc r ∧
          getCell r' dc = Value.str (pyStrip (pyStr (getCell r dc)))) ∧
      (∀ r ∈ df.rows, getCell r dc = Value.null →
          getCell (normalizeRow dc r) dc = Value.str "nan") ∧
      (df'.rows.map (fun r => getCell r dc)).Nodup ∧
      (df'.rows.filter (fun r' => getCell r' dc == Value.str "nan")).length ≤ 1 ∧
      (∀ st P res1 df1,
        (st = none ∨ ∃ df0, st = some (Except.ok df0)) →
        dc ∈ canonicalCols st P →
        appendRun st P dc = (Except.ok res1, some (Except.ok df1)) →
        ((df1.rows.map (fun r => getCell r dc)).Nodup ∧
         ∀ r' ∈ df1.rows, ∃ t, getCell r' dc = Value.str (pyStrip t))) := by
  refine ⟨_, _, dedupeRun_first_eq df dc hdc, ?_, ?_, ?_, ?_, ?_⟩
  · intro r' hr'
    have hr'm : r' ∈ df.rows.map (normalizeRow dc) := mem_of_mem_dedupFirstAux _ _ _ _ hr'
    rcases List.mem_map.mp hr'm with ⟨r, hr, hreq⟩
    refine ⟨r, hr, hreq.symm, ?_⟩
    rw [← hreq]
    exact keyOf_normalizeRow dc r
  · intro r _ hnull
    have h1 : getCell (normalizeRow dc r) dc = Value.str (pyStrip (pyStr (getCell r dc))) :=
      keyOf_normalizeRow dc r
    rw [h1, hnull]
    rfl
  · exact nodup_map_dedupFirstAux (keyOf dc) _ _
  · exact length_filter_key_le_one (keyOf dc) _ _ (nodup_map_dedupFirstAux _ _ _)
  · intro st P res1 df1 hvalid hdc1 heq
    obtain ⟨res1', df1', heq', _, _, hkeys', hnodup', _⟩ :=
      appendRun_fresh st P dc hvalid hdc1
    rw [heq] at heq'
    have hdf : df1 = df1' := by
      have h2 := congrArg Prod.snd heq'
      simpa using h2
    rw [hdf]
    exact ⟨hnodup', hkeys'⟩

theorem claim_C9_witness :
    ∃ res df',
      dedupeRun (some (Except.ok (⟨["LinkedIn URL"],
          [[("LinkedIn URL", Value.null)], [("LinkedIn URL", Value.str " u ")]]⟩ : DF)))
        "LinkedIn URL" "first" = Except.ok (res, df') ∧
      (∀ r' ∈ df'.rows, ∃ r ∈ ([[("LinkedIn URL", Value.null)],
          [("LinkedIn URL", Value.str " u ")]] : List Row),
          r' = normalizeRow "LinkedIn URL" r ∧
          getCell r' "LinkedIn URL" =
            Value.str (pyStrip (pyStr (getCell r "LinkedIn URL")))) ∧
      (∀ r ∈ ([[("LinkedIn URL", Value.null)],
          [("LinkedIn URL", Value.str " u ")]] : List Row),
          getCell r "LinkedIn URL" = Value.null →
          getCell (normalizeRow "LinkedIn URL" r) "LinkedIn URL" = Value.str "nan") ∧
      (df'.rows.map (fun r => getCell r "LinkedIn URL")).Nodup ∧
      (df'.rows.filter
          (fun r' => getCell r' "LinkedIn URL" == Value.str "nan")).length ≤ 1 ∧
      (∀ st P res1 df1,
        (st = none ∨ ∃ df0, st = some (Except.ok df0)) →
        "LinkedIn URL" ∈ canonicalCols st P →
        appendRun st P "LinkedIn URL" = (Except.ok res1, some (Except.ok df1)) →
        ((df1.rows.map (fun r => getCell r "LinkedIn URL")).Nodup ∧
         ∀ r' ∈ df1.rows, ∃ t, getCell r' "LinkedIn URL" = Value.str (pyStrip t))) :=
  claim_C9_normalized_dedupe_column
    ⟨["LinkedIn URL"], [[("LinkedIn URL", Value.null)], [("LinkedIn URL", Value.str " u ")]]⟩
    "LinkedIn URL" (by decide)

theorem stageOpt_ok_sublist (cols : List String) (c : String) (pOpt : Option (Row → Bool))
    (rows out : List Row) (h : stageOpt cols c pOpt rows = Except.ok out) :
    out.Sublist rows := by
  cases pOpt with
  | none =>
    simp only [stageOpt] at h
    cases h
    exact List.Sublist.refl _
  | some p =>
    simp only [stageOpt] at h
    by_cases hc : c ∈ cols
    · rw [if_pos hc] at h
      cases h
      exact List.filter_sublist rows
    · rw [if_neg hc] at h
      cases h

theorem stageOpt_some_facts (cols : List String) (c : String) (p : Row → Bool)
    (rows out : List Row) (h : stageOpt cols c (some p) rows = Except.ok out) :
    c ∈ cols ∧ out = rows.filter p := by
  simp only [stageOpt] at h
  by_cases hc : c ∈ cols
  · rw [if_pos hc] at h
    injection h with h2
    exact ⟨hc, h2.symm⟩
  · rw [if_neg hc] at h
    cases h

theorem stageFound_mem (cols : List String) (fad : Option String) (rows out : List Row)
    (h : stageFound cols fad rows = Except.ok out) :
    ∀ r' ∈ out, ∃ r ∈ rows, r' = r ∨ r' = setFoundStr r := by
  cases fad with
  | none =>
    simp only [stageFound] at h
    cases h
    exact fun r' hr' => ⟨r', hr', Or.inl rfl⟩
  | some s =>
    simp only [stageFound] at h
    by_cases hs : s = ""
    · rw [if_pos hs] at h
      cases h
      exact fun r' hr' => ⟨r', hr', Or.inl rfl⟩
    · rw [if_neg hs] at h
      by_cases hcol : "Found Date" ∈ cols
      · rw [if_pos hcol] at h
        cases hparse : parseISO s with
        | none => rw [hparse] at h; cases h
        | some t =>
          rw [hparse] at h
          cases h
          intro r' hr'
          rcases List.mem_map.mp hr' with ⟨r, hr, hreq⟩
          exact ⟨r, (List.mem_filter.mp hr).1, Or.inr hreq.symm⟩
      · rw [if_neg hcol] at h
        cases h

theorem stageFound_none_sublist (cols : List String) (rows out : List Row)
    (h : stageFound cols none rows = Except.ok out) : out = rows := by
  simp only [stageFound] at h
  cases h
  rfl

theorem getCell_setFoundStr_ne (r : Row) (c : String) (h : c ≠ "Found Date") :
    getCell (setFoundStr r) c = getCell r c := by
  cases hp : parseDateCell (getCell r "Found Date") with
  | some u =>
    simp only [setFoundStr, hp]
    exact getCell_setCell_ne r "Found Date" c _ h
  | none =>
    simp only [setFoundStr, hp]
    exact getCell_setCell_ne r "Found Date" c _ h

theorem rankLtb_iff (x r : Row) : rankLtb x r = true ↔ rank x < rank r := by
  unfold rankLtb rank
  cases getCell x "v2 Score" with
  | int m =>
    cases getCell r "v2 Score" with
    | int n => simp [WithBot.coe_lt_coe]
    | str s => simp [not_lt_bot]
    | null => simp [not_lt_bot]
  | str s =>
    cases getCell r "v2 Score" with
    | int n => simp [WithBot.bot_lt_coe]
    | str s2 => simp
    | null => simp
  | null =>
    cases getCell r "v2 Score" with
    | int n => simp [WithBot.bot_lt_coe]
    | str s2 => simp
    | null => simp

theorem mem_insertDesc (r x : Row) (l : List Row) :
    x ∈ insertDesc r l ↔ x = r ∨ x ∈ l := by
  induction l with
  | nil => simp [insertDesc]
  | cons y ys ih =>
    by_cases hc : rankLtb y r = true
    · rw [insertDesc, if_pos hc]
      simp [List.mem_cons]
    · rw [insertDesc, if_neg hc]
      simp only [List.mem_cons, ih]
      tauto

theorem mem_sortDesc (x : Row) (l : List Row) : x ∈ sortDesc l ↔ x ∈ l := by
  induction l with
  | nil => simp [sortDesc]
  | cons y ys ih =>
    rw [sortDesc, mem_insertDesc]
    simp [List.mem_cons, ih]

theorem pairwise_insertDesc (r : Row) (l : List Row)
    (h : l.Pairwise (fun a b => rank b ≤ rank a)) :
    (insertDesc r l).Pairwise (fun a b => rank b ≤ rank a) := by
  induction l with
  | nil => simp [insertDesc]
  | cons y ys ih =>
    rcases List.pairwise_cons.mp h with ⟨hy, hys⟩
    by_cases hc : rankLtb y r = true
    · rw [insertDesc, if_pos hc]
      have hlt : rank y < rank r := (rankLtb_iff y r).mp hc
      refine List.pairwise_cons.mpr ⟨?_, h⟩
      intro b hb
      rcases List.mem_cons.mp hb with e | m
      · exact e ▸ le_of_lt hlt
      · exact le_trans (hy b m) (le_of_lt hlt)
    · rw [insertDesc, if_neg hc]
      have hle : rank r ≤ rank y := not_lt.mp (fun hlt => hc ((rankLtb_iff y r).mpr hlt))
      refine List.pairwise_cons.mpr ⟨?_, ih hys⟩
      intro b hb
      rcases (mem_insertDesc r b ys).mp hb with e | m
      · exact e ▸ hle
      · exact hy b m

theorem pairwise_sortDesc (l : List Row) :
    (sortDesc l).Pairwise (fun a b => rank b ≤ rank a) := by
  induction l with
  | nil => simp [sortDesc]
  | cons y ys ih => exact pairwise_insertDesc y _ ih

theorem applyLimit_sublist (lim : Option Nat) (rows : List Row) :
    (applyLimit lim rows).Sublist rows := by
  cases lim with
  | none => exact List.Sublist.refl _
  | some n =>
    simp only [applyLimit]
    by_cases h : n = 0
    · rw [if_pos h]
    · rw [if_neg h]
      exact List.take_sublist n rows

theorem rank_fillRow (cols : List String) (r : Row) (h : "v2 Score" ∈ cols) :
    rank (fillRow cols r) = rank r := by
  unfold rank
  rw [getCell_fillRow cols r _ h]
  cases hget : getCell r "v2 Score" with
  | str s => rfl
  | int n => rfl
  | null => rfl

theorem scoreGEb_setFoundStr (S : Int) (r : Row) :
    scoreGEb S (setFoundStr r) = scoreGEb S r := by
  unfold scoreGEb
  rw [getCell_setFoundStr_ne r _ (by decide)]

theorem scoreLEb_setFoundStr (S : Int) (r : Row) :
    scoreLEb S (setFoundStr r) = scoreLEb S r := by
  unfold scoreLEb
  rw [getCell_setFoundStr_ne r _ (by decide)]

theorem filterCore_spec (df : DF) (ms mxs : Option Int)
    (ls cos : Option (List String)) (cro : Option Bool) (fad : Option String)
    (pr : List String × List Row)
    (hcore : filterCore (some (Except.ok df)) ms mxs ls cos cro fad = Except.ok pr) :
    pr.1 = df.cols ∧
    (∀ S, ms = some S → "v2 Score" ∈ df.cols ∧ ∀ r ∈ pr.2, scoreGEb S r = true) ∧
    (∀ M, mxs = some M → "v2 Score" ∈ df.cols ∧ ∀ r ∈ pr.2, scoreLEb M r = true) ∧
    (∀ l ls', ls = some (l :: ls') → "Location" ∈ df.cols ∧
        ∀ r ∈ pr.2, strContainsRegexCI (l :: ls') (getCell r "Location") = true) ∧
    (∀ l ls', cos = some (l :: ls') → "Company" ∈ df.cols ∧
        ∀ r ∈ pr.2, strContainsRegexCI (l :: ls') (getCell r "Company") = true) ∧
    ("v2 Score" ∈ df.cols → pr.2.Pairwise (fun a b => rank b ≤ rank a)) ∧
    ("v2 Score" ∉ df.cols → fad = none → pr.2.Sublist df.rows) := by
  simp only [filterCore] at hcore
  split at hcore
  next e h1 => cases hcore
  next rows1 h1 =>
  split at hcore
  next e h2 => cases hcore
  next rows2 h2 =>
  split at hcore
  next e h3 => cases hcore
  next rows3 h3 =>
  split at hcore
  next e h4 => cases hcore
  next rows4 h4 =>
  split at hcore
  next e h5 => cases hcore
  next rows5 h5 =>
  split at hcore
  next e h6 => cases hcore
  next rows6 h6 =>
  cases hcore
  have sub21 : rows2.Sublist rows1 := stageOpt_ok_sublist _ _ _ _ _ h2
  have sub32 : rows3.Sublist rows2 := stageOpt_ok_sublist _ _ _ _ _ h3
  have sub43 : rows4.Sublist rows3 := stageOpt_ok_sublist _ _ _ _ _ h4
  have sub54 : rows5.Sublist rows4 := stageOpt_ok_sublist _ _ _ _ _ h5
  have mem6 : ∀ r' ∈ rows6, ∃ r ∈ rows5, r' = r ∨ r' = setFoundStr r :=
    stageFound_mem _ _ _ _ h6
  have mem7 : ∀ r ∈ (if "v2 Score" ∈ df.cols then sortDesc rows6 else rows6), r ∈ rows6 := by
    intro r hr
    by_cases hsc : "v2 Score" ∈ df.cols
    · rw [if_pos hsc] at hr
      exact (mem_sortDesc r rows6).mp hr
    · rw [if_neg hsc] at hr
      exact hr
  refine ⟨rfl, ?_, ?_, ?_, ?_, ?_, ?_⟩
  · intro S hms
    rw [hms] at h1
    simp only [Option.map] at h1
    obtain ⟨hsc, hrows1⟩ := stageOpt_some_facts _ _ _ _ _ h1
    refine ⟨hsc, ?_⟩
    intro r hr
    obtain ⟨r5, hr5, hcase⟩ := mem6 r (mem7 r hr)
    have hr1 : r5 ∈ rows1 := sub21.subset (sub32.subset (sub43.subset (sub54.subset hr5)))
    rw [hrows1] at hr1
    have hp := (List.mem_filter.mp hr1).2
    rcases hcase with e | e
    · rw [e]; exact hp
    · rw [e, scoreGEb_setFoundStr]; exact hp
  · intro M hmx
    rw [hmx] at h2
    simp only [Option.map] at h2
    obtain ⟨hsc, hrows2⟩ := stageOpt_some_facts _ _ _ _ _ h2
    refine ⟨hsc, ?_⟩
    intro r hr
    obtain ⟨r5, hr5, hcase⟩ := mem6 r (mem7 r hr)
    have hr2 : r5 ∈ rows2 := sub32.subset (sub43.subset (sub54.subset hr5))
    rw [hrows2] at hr2
    have hp := (List.mem_filter.mp hr2).2
    rcases hcase with e | e
    · rw [e]; exact hp
    · rw [e, scoreLEb_setFoundStr]; exact hp
  · intro l ls' hls
    rw [hls] at h3
    simp only [listPred] at h3
    obtain ⟨hsc, hrows3⟩ := stageOpt_some_facts _ _ _ _ _ h3
    refine ⟨hsc, ?_⟩
    intro r hr
    obtain ⟨r5, hr5, hcase⟩ := mem6 r (mem7 r hr)
    have hr3 : r5 ∈ rows3 := sub43.subset (sub54.subset hr5)
    rw [hrows3] at hr3
    have hp := (List.mem_filter.mp hr3).2
    rcases hcase with e | e
    · rw [e]; exact hp
    · rw [e, getCell_setFoundStr_ne r5 _ (by decide)]; exact hp
  · intro l ls' hcos
    rw [hcos] at h4
    simp only [listPred] at h4
    obtain ⟨hsc, hrows4⟩ := stageOpt_some_facts _ _ _ _ _ h4
    refine ⟨hsc, ?_⟩
    intro r hr
    obtain ⟨r5, hr5, hcase⟩ := mem6 r (mem7 r hr)
    have hr4 : r5 ∈ rows4 := sub54.subset hr5
    rw [hrows4] at hr4
    have hp := (List.mem_filter.mp hr4).2
    rcases hcase with e | e
    · rw [e]; exact hp
    · rw [e, getCell_setFoundStr_ne r5 _ (by decide)]; exact hp
  · intro hsc
    show (if "v2 Score" ∈ df.cols then sortDesc rows6 else rows6).Pairwise _
    rw [if_pos hsc]
    exact pairwise_sortDesc rows6
  · intro hsc hfad
    show (if "v2 Score" ∈ df.cols then sortDesc rows6 else rows6).Sublist df.rows
    rw [if_neg hsc]
    subst hfad
    have h65 : rows6 = rows5 := stageFound_none_sublist _ _ _ h6
    have sub10 : rows1.Sublist df.rows := by
      have h0 := stageOpt_ok_sublist _ _ _ _ _ h1
      rw [if_neg hsc] at h0
      exact h0
    rw [h65]
    exact ((sub54.trans sub43).trans (sub32.trans sub21)).trans sub10

/-- C7: with `min_score` supplied every returned record's `v2 Score` is a
numeric value at least the bound, and with `max_score` supplied at most the
bound, both inclusive; rows with NA/non-numeric scores are never returned
when a bound is supplied (they fail the comparison). -/
theorem claim_C7_score_bounds :
    (∀ df S mxs ls cos cro fad lim out,
      filterRun (some (Except.ok df)) (some S) mxs ls cos cro fad lim = Except.ok out →
      ∀ r' ∈ out, ∃ n : Int, getCell r' "v2 Score" = Value.int n ∧ S ≤ n) ∧
    (∀ df ms M ls cos cro fad lim out,
      filterRun (some (Except.ok df)) ms (some M) ls cos cro fad lim = Except.ok out →
      ∀ r' ∈ out, ∃ n : Int, getCell r' "v2 Score" = Value.int n ∧ n ≤ M) := by
  constructor
  · intro df S mxs ls cos cro fad lim out h r' hr'
    simp only [filterRun] at h
    cases hcore : filterCore (some (Except.ok df)) (some S) mxs ls cos cro fad with
    | error e => rw [hcore] at h; cases h
    | ok pr =>
      obtain ⟨cols, rows⟩ := pr
      rw [hcore] at h
      cases h
      obtain ⟨r, hrmem, hreq⟩ := List.mem_map.mp hr'
      have hrrows : r ∈ rows := (applyLimit_sublist lim rows).subset hrmem
      obtain ⟨hcols, hminspec, _⟩ := filterCore_spec df _ mxs ls cos cro fad _ hcore
      obtain ⟨hsc, hall⟩ := hminspec S rfl
      have hp := hall r hrrows
      have hcols' : cols = df.cols := hcols
      have hsc' : "v2 Score" ∈ cols := by rw [hcols']; exact hsc
      unfold scoreGEb at hp
      cases hget : getCell r "v2 Score" with
      | int n =>
        rw [hget] at hp
        refine ⟨n, ?_, of_decide_eq_true hp⟩
        rw [← hreq, getCell_fillRow _ _ _ hsc', hget]
        rfl
      | str s => rw [hget] at hp; cases hp
      | null => rw [hget] at hp; cases hp
  · intro df ms M ls cos cro fad lim out h r' hr'
    simp only [filterRun] at h
    cases hcore : filterCore (some (Except.ok df)) ms (some M) ls cos cro fad with
    | error e => rw [hcore] at h; cases h
    | ok pr =>
      obtain ⟨cols, rows⟩ := pr
      rw [hcore] at h
      cases h
      obtain ⟨r, hrmem, hreq⟩ := List.mem_map.mp hr'
      have hrrows : r ∈ rows := (applyLimit_sublist lim rows).subset hrmem
      obtain ⟨hcols, _, hmaxspec, _⟩ := filterCore_spec df ms _ ls cos cro fad _ hcore
      obtain ⟨hsc, hall⟩ := hmaxspec M rfl
      have hp := hall r hrrows
      have hcols' : cols = df.cols := hcols
      have hsc' : "v2 Score" ∈ cols := by rw [hcols']; exact hsc
      unfold scoreLEb at hp
      cases hget : getCell r "v2 Score" with
      | int n =>
        rw [hget] at hp
        refine ⟨n, ?_, of_decide_eq_true hp⟩
        rw [← hreq, getCell_fillRow _ _ _ hsc', hget]
        rfl
      | str s => rw [hget] at hp; cases hp
      | null => rw [hget] at hp; cases hp

theorem claim_C7_witness :
    ∀ r' ∈ [[("v2 Score", Value.int 7)]],
      ∃ n : Int, getCell r' "v2 Score" = Value.int n ∧ (6 : Int) ≤ n :=
  claim_C7_score_bounds.1
    ⟨["v2 Score"], [[("v2 Score", Value.int 5)], [("v2 Score", Value.str "7")],
      [("v2 Score", Value.null)], [("v2 Score", Value.str "zz")]]⟩
    6 none none none none none none _ (by rfl)

/-- C5 (amended): when `v2 Score` is present the returned rows are in
descending score order with NA scores last; a supplied nonzero limit N makes
the result the N-row truncation of the unlimited result; when the score
column is absent (and no date criterion rewrites rows) the result preserves
load order.  The claim's `N = 0` case fails: a limit of 0 is falsy in Python
and performs no truncation. -/
theorem claim_C5_sort_and_limit :
    (∀ df ms mxs ls cos cro fad lim out,
      "v2 Score" ∈ df.cols →
      filterRun (some (Except.ok df)) ms mxs ls cos cro fad lim = Except.ok out →
      out.Pairwise (fun a b => rank b ≤ rank a)) ∧
    (∀ st ms mxs ls cos cro fad n, n ≠ 0 →
      filterRun st ms mxs ls cos cro fad (some n) =
        Except.map (fun l => l.take n) (filterRun st ms mxs ls cos cro fad none)) ∧
    (∀ df ms mxs ls cos cro lim out,
      "v2 Score" ∉ df.cols →
      filterRun (some (Except.ok df)) ms mxs ls cos cro none lim = Except.ok out →
      ∃ l' : List Row, l'.Sublist df.rows ∧ out = l'.map (fillRow df.cols)) := by
  refine ⟨?_, ?_, ?_⟩
  · intro df ms mxs ls cos cro fad lim out hsc h
    simp only [filterRun] at h
    cases hcore : filterCore (some (Except.ok df)) ms mxs ls cos cro fad with
    | error e => rw [hcore] at h; cases h
    | ok pr =>
      obtain ⟨cols, rows⟩ := pr
      rw [hcore] at h
      cases h
      obtain ⟨hcols, _, _, _, _, hsort, _⟩ := filterCore_spec df ms mxs ls cos cro fad _ hcore
      have hcols' : cols = df.cols := hcols
      have hsc' : "v2 Score" ∈ cols := by rw [hcols']; exact hsc
      have hpair : rows.Pairwise (fun a b => rank b ≤ rank a) := hsort hsc
      rw [List.pairwise_map]
      refine (List.Pairwise.sublist (applyLimit_sublist lim rows) hpair).imp ?_
      intro a b hab
      rw [rank_fillRow cols _ hsc', rank_fillRow cols _ hsc']
      exact hab
  · intro st ms mxs ls cos cro fad n hn
    simp only [filterRun]
    cases hcore : filterCore st ms mxs ls cos cro fad with
    | error e => rfl
    | ok pr =>
      obtain ⟨cols, rows⟩ := pr
      simp only [Except.map, applyLimit, if_neg hn]
      rw [List.map_take]
  · intro df ms mxs ls cos cro lim out hsc h
    simp only [filterRun] at h
    cases hcore : filterCore (some (Except.ok df)) ms mxs ls cos cro none with
    | error e => rw [hcore] at h; cases h
    | ok pr =>
      obtain ⟨cols, rows⟩ := pr
      rw [hcore] at h
      cases h
      obtain ⟨hcols, _, _, _, _, _, hsub⟩ := filterCore_spec df ms mxs ls cos cro none _ hcore
      have hcols' : cols = df.cols := hcols
      refine ⟨applyLimit lim rows, (applyLimit_sublist lim rows).trans (hsub hsc rfl), ?_⟩
      rw [hcols']

/-- C5 counterexample: a supplied limit of 0 does not truncate — the result
still has one row where the claim demands the empty truncation. -/
theorem claim_C5_counterexample :
    filterRun (some (Except.ok ⟨["v2 Score"], [[("v2 Score", Value.int 5)]]⟩)) none none
        none none none none (some 0) = Except.ok [[("v2 Score", Value.int 5)]] := by rfl

theorem claim_C5_witness :
    List.Pairwise (fun a b => rank b ≤ rank a)
      [[("v2 Score", Value.int 7)], [("v2 Score", Value.int 5)]] ∧
    filterRun (some (Except.ok (⟨["v2 Score"],
        [[("v2 Score", Value.int 5)], [("v2 Score", Value.int 7)]]⟩ : DF))) none none
        none none none none (some 1) =
      Except.map (fun l => l.take 1)
        (filterRun (some (Except.ok (⟨["v2 Score"],
          [[("v2 Score", Value.int 5)], [("v2 Score", Value.int 7)]]⟩ : DF))) none none
          none none none none none) :=
  ⟨claim_C5_sort_and_limit.1
      ⟨["v2 Score"], [[("v2 Score", Value.int 5)], [("v2 Score", Value.int 7)]]⟩
      none none none none none none none _ (by decide) (by rfl),
   claim_C5_sort_and_limit.2.1
      (some (Except.ok ⟨["v2 Score"], [[("v2 Score", Value.int 5)], [("v2 Score", Value.int 7)]]⟩))
      none none none none none none 1 (by decide)⟩

/-- C3 (amended): only the score coercion/sort block is presence-guarded.
An active filter criterion whose column is absent raises a key error instead
of completing (shown for `min_score` without `v2 Score` and `locations`
without `Location`), and `get_csv_stats` raises on the first absent one of
`Location`, `Company Size`, `Found Date`, `CURRENT Role Mention`. -/
theorem claim_C3_missing_columns :
    (∀ df S, "v2 Score" ∉ df.cols →
      filterRun (some (Except.ok df)) (some S) none none none none none none =
        Except.error "KeyError: v2 Score") ∧
    (∀ df l ls', "Location" ∉ df.cols →
      filterRun (some (Except.ok df)) none none (some (l :: ls')) none none none none =
        Except.error "KeyError: Location") ∧
    (∀ df, "Location" ∉ df.cols →
      statsRun (some (Except.ok df)) = Except.error "KeyError: Location") ∧
    (∀ df, "Location" ∈ df.cols → "Company Size" ∉ df.cols →
      statsRun (some (Except.ok df)) = Except.error "KeyError: Company Size") ∧
    (∀ df, "Location" ∈ df.cols → "Company Size" ∈ df.cols → "Found Date" ∉ df.cols →
      statsRun (some (Except.ok df)) = Except.error "KeyError: Found Date") ∧
    (∀ df, "Location" ∈ df.cols → "Company Size" ∈ df.cols → "Found Date" ∈ df.cols →
      "CURRENT Role Mention" ∉ df.cols →
      statsRun (some (Except.ok df)) = Except.error "KeyError: CURRENT Role Mention") := by
  refine ⟨?_, ?_, ?_, ?_, ?_, ?_⟩
  · intro df S h
    simp only [filterRun, filterCore, stageOpt, Option.map, if_neg h]
    rfl
  · intro df l ls' h
    simp only [filterRun, filterCore, stageOpt, listPred, Option.map, if_neg h]
    rfl
  · intro df h
    simp only [statsRun, if_neg h]
  · intro df h1 h2
    simp only [statsRun, if_pos h1, if_neg h2]
  · intro df h1 h2 h3
    simp only [statsRun, if_pos h1, if_pos h2, if_neg h3]
  · intro df h1 h2 h3 h4
    simp only [statsRun, if_pos h1, if_pos h2, if_pos h3, if_neg h4]

/-- C3 counterexample: on a table with a single column `A`, filtering with a
minimum score raises a `v2 Score` key error and the statistics operation
raises a `Location` key error — neither returns normally. -/
theorem claim_C3_counterexample :
    filterRun (some (Except.ok ⟨["A"], [[("A", Value.str "x")]]⟩)) (some 5) none none none
        none none none = Except.error "KeyError: v2 Score" ∧
    statsRun (some (Except.ok ⟨["A"], [[("A", Value.str "x")]]⟩)) =
      Except.error "KeyError: Location" := ⟨by rfl, by rfl⟩

theorem claim_C3_witness :
    filterRun (some (Except.ok (⟨["A"], []⟩ : DF))) (some 5) none none none none none none =
      Except.error "KeyError: v2 Score" ∧
    filterRun (some (Except.ok (⟨["A"], []⟩ : DF))) none none (some ["x"]) none none none none =
      Except.error "KeyError: Location" ∧
    statsRun (some (Except.ok (⟨["A"], []⟩ : DF))) = Except.error "KeyError: Location" ∧
    statsRun (some (Except.ok (⟨["Location"], []⟩ : DF))) =
      Except.error "KeyError: Company Size" ∧
    statsRun (some (Except.ok (⟨["Location", "Company Size"], []⟩ : DF))) =
      Except.error "KeyError: Found Date" ∧
    statsRun (some (Except.ok (⟨["Location", "Company Size", "Found Date"], []⟩ : DF))) =
      Except.error "KeyError: CURRENT Role Mention" :=
  ⟨claim_C3_missing_columns.1 ⟨["A"], []⟩ 5 (by decide),
   claim_C3_missing_columns.2.1 ⟨["A"], []⟩ "x" [] (by decide),
   claim_C3_missing_columns.2.2.1 ⟨["A"], []⟩ (by decide),
   claim_C3_missing_columns.2.2.2.1 ⟨["Location"], []⟩ (by decide) (by decide),
   claim_C3_missing_columns.2.2.2.2.1 ⟨["Location", "Company Size"], []⟩ (by decide)
     (by decide) (by decide),
   claim_C3_missing_columns.2.2.2.2.2 ⟨["Location", "Company Size", "Found Date"], []⟩
     (by decide) (by decide) (by decide) (by decide)⟩

theorem dotMatchCI_eq_isPrefixOf (pl : List Char) (hdot : '.' ∉ pl) (t : List Char) :
    dotMatchCI true pl t = (lowerL pl).isPrefixOf (lowerL t) := by
  induction pl generalizing t with
  | nil => cases t <;> rfl
  | cons p ps ih =>
    have hp : (p == '.') = false := by
      have hne : p ≠ '.' := fun e => hdot (by rw [e]; exact List.mem_cons_self _ _)
      simp [hne]
    have hps : '.' ∉ ps := fun m => hdot (List.mem_cons_of_mem _ m)
    cases t with
    | nil => simp [dotMatchCI, lowerL, List.isPrefixOf]
    | cons c cs =>
      simp only [dotMatchCI, hp, Bool.false_or, if_true, lowerL, List.map_cons,
        List.isPrefixOf]
      rw [ih hps cs]
      rfl

theorem tailsMap (f : Char → Char) (l : List Char) :
    (l.map f).tails = l.tails.map (List.map f) := by
  induction l with
  | nil => rfl
  | cons a as ih => simp [List.tails_cons, ih]

theorem dotSearch_metaFree (p s : String) (h : metaFree p = true) :
    dotSearch true p.toList s.toList = containsCI p s := by
  have hdot : '.' ∉ p.toList := by
    intro m
    have h2 := List.all_eq_true.mp h '.' m
    simp [metaChars] at h2
  have hfun : (fun t => dotMatchCI true p.toList t) =
      (fun t => (lowerL p.toList).isPrefixOf (lowerL t)) :=
    funext (fun t => dotMatchCI_eq_isPrefixOf p.toList hdot t)
  unfold dotSearch containsCI containsSub
  rw [hfun]
  rw [show lowerL s.toList = s.toList.map Char.toLower from rfl, tailsMap, List.any_map]
  rfl

theorem strContainsRegexCI_metaFree (pats : List String) (v : Value)
    (h : ∀ p ∈ pats, metaFree p = true) :
    (strContainsRegexCI pats v = true ↔
      ∃ s, v = Value.str s ∧ ∃ p ∈ pats, containsCI p s = true) := by
  cases v with
  | str s =>
    simp only [strContainsRegexCI, List.any_eq_true]
    constructor
    · rintro ⟨p, hp, hm⟩
      exact ⟨s, rfl, p, hp, by rw [← dotSearch_metaFree p s (h p hp)]; exact hm⟩
    · rintro ⟨s', hs', p, hp, hc⟩
      injection hs' with hss
      subst hss
      exact ⟨p, hp, by rw [dotSearch_metaFree p s (h p hp)]; exact hc⟩
  | int n => simp [strContainsRegexCI]
  | null => simp [strContainsRegexCI]

/-- C2 (amended): a location (or company) cell passes the filter exactly when
it is a string that the `'|'`-joined pattern matches as a case-insensitive
regular expression; when every supplied string is free of regex
metacharacters this coincides with the claimed semantics — the cell contains
at least one of the strings as a case-insensitive literal substring, NA cells
never matching — and every returned row's Location then contains some
supplied string as a case-insensitive substring.  With metacharacters in a
pattern the literal-substring reading of the claim fails. -/
theorem claim_C2_location_semantics :
    (∀ pats v, (∀ p ∈ pats, metaFree p = true) →
      (strContainsRegexCI pats v = true ↔
        ∃ s, v = Value.str s ∧ ∃ p ∈ pats, containsCI p s = true)) ∧
    (∀ df ms mxs l ls' cos cro fad lim out,
      (∀ p ∈ l :: ls', metaFree p = true) →
      filterRun (some (Except.ok df)) ms mxs (some (l :: ls')) cos cro fad lim =
        Except.ok out →
      ∀ r' ∈ out, ∃ s, getCell r' "Location" = Value.str s ∧
        ∃ p ∈ l :: ls', containsCI p s = true) := by
  refine ⟨fun pats v h => strContainsRegexCI_metaFree pats v h, ?_⟩
  intro df ms mxs l ls' cos cro fad lim out hmeta h r' hr'
  simp only [filterRun] at h
  cases hcore : filterCore (some (Except.ok df)) ms mxs (some (l :: ls')) cos cro fad with
  | error e => rw [hcore] at h; cases h
  | ok pr =>
    obtain ⟨cols, rows⟩ := pr
    rw [hcore] at h
    cases h
    obtain ⟨r, hrmem, hreq⟩ := List.mem_map.mp hr'
    have hrrows : r ∈ rows := (applyLimit_sublist lim rows).subset hrmem
    obtain ⟨hcols, _, _, hlocspec, _⟩ := filterCore_spec df ms mxs _ cos cro fad _ hcore
    obtain ⟨hloc, hall⟩ := hlocspec l ls' rfl
    have hcols' : cols = df.cols := hcols
    have hloc' : "Location" ∈ cols := by rw [hcols']; exact hloc
    have hp := hall r hrrows
    obtain ⟨s, hs, p, hpmem, hpc⟩ :=
      (strContainsRegexCI_metaFree (l :: ls') (getCell r "Location") hmeta).mp hp
    refine ⟨s, ?_, p, hpmem, hpc⟩
    rw [← hreq, getCell_fillRow _ _ _ hloc', hs]
    rfl

/-- C2 counterexample: the supplied string "a.c" is not a literal substring
of the Location value "abc", yet the row is kept — `str.contains` interprets
the pattern as a regular expression where `.` matches any character. -/
theorem claim_C2_counterexample :
    filterRun (some (Except.ok ⟨["Location"], [[("Location", Value.str "abc")]]⟩)) none none
        (some ["a.c"]) none none none none = Except.ok [[("Location", Value.str "abc")]] ∧
    containsCI "a.c" "abc" = false := ⟨by rfl, by rfl⟩

theorem claim_C2_witness :
    ∃ s, getCell [("Location", Value.str "Berlin, Germany")] "Location" = Value.str s ∧
      ∃ p ∈ ["berlin"], containsCI p s = true :=
  claim_C2_location_semantics.2
    ⟨["Location"], [[("Location", Value.str "Berlin, Germany")],
      [("Location", Value.str "Paris")], [("Location", Value.null)]]⟩
    none none "berlin" [] none none none none _ (by decide) (by rfl)
    [("Location", Value.str "Berlin, Germany")] (by decide)

/-- C4 (amended): a row is returned by an unlimited search exactly when the
term occurs as a literal substring (no regex interpretation,
case-insensitively unless `case_sensitive`) of the `str()`-rendered form of
some searched-and-present column cell.  NA cells are rendered as the literal
string "nan" by `astype(str)` before matching, so — contrary to the claim —
they do match terms contained in "nan".  The returned record is the
`fillna("")` rendering of the (score-coerced, when the column exists) row. -/
theorem claim_C4_search_semantics (df : DF) (term : String) (columns : Option (List String))
    (cs : Bool) (out : List Row)
    (h : searchRun (some (Except.ok df)) term columns cs none = Except.ok out) :
    ∀ r', (r' ∈ out ↔
      ∃ r ∈ df.rows,
        (∃ c ∈ effectiveSearchCols df.cols columns,
            searchMatchCell term cs (getCell r c) = true) ∧
        r' = fillRow df.cols (if "v2 Score" ∈ df.cols then coerceScore r else r)) := by
  intro r'
  simp only [searchRun] at h
  cases h
  simp only [applyLimit]
  by_cases hsc : "v2 Score" ∈ df.cols
  · rw [if_pos hsc]
    simp only [if_pos hsc]
    constructor
    · intro hr'
      obtain ⟨a, ha, haeq⟩ := List.mem_map.mp hr'
      have ha2 := (mem_sortDesc a _).mp ha
      obtain ⟨r, hrm, hreq⟩ := List.mem_map.mp ha2
      have hrmem := List.mem_filter.mp hrm
      refine ⟨r, hrmem.1, ?_, ?_⟩
      · have hb := hrmem.2
        unfold rowMatchesSearch at hb
        exact List.any_eq_true.mp hb
      · rw [← haeq, hreq]
    · rintro ⟨r, hrmem, ⟨c, hc, hcell⟩, hreq⟩
      rw [hreq]
      apply List.mem_map_of_mem
      rw [mem_sortDesc]
      apply List.mem_map_of_mem
      rw [List.mem_filter]
      refine ⟨hrmem, ?_⟩
      unfold rowMatchesSearch
      exact List.any_eq_true.mpr ⟨c, hc, hcell⟩
  · rw [if_neg hsc]
    simp only [if_neg hsc]
    constructor
    · intro hr'
      obtain ⟨r, hrm, hreq⟩ := List.mem_map.mp hr'
      have hrmem := List.mem_filter.mp hrm
      refine ⟨r, hrmem.1, ?_, hreq.symm⟩
      have hb := hrmem.2
      unfold rowMatchesSearch at hb
      exact List.any_eq_true.mp hb
    · rintro ⟨r, hrmem, ⟨c, hc, hcell⟩, hreq⟩
      rw [hreq]
      apply List.mem_map_of_mem
      rw [List.mem_filter]
      refine ⟨hrmem, ?_⟩
      unfold rowMatchesSearch
      exact List.any_eq_true.mpr ⟨c, hc, hcell⟩

/-- C4 counterexample: the only cell of the row is NA, yet searching for the
term "nan" returns the row — `astype(str)` renders NA as "nan" before the
substring scan, so null cells do match. -/
theorem claim_C4_counterexample :
    searchRun (some (Except.ok ⟨["Headline"], [[("Headline", Value.null)]]⟩)) "nan" none
        false none = Except.ok [[("Headline", Value.str "")]] ∧
    getCell [("Headline", Value.null)] "Headline" = Value.null := ⟨by rfl, by rfl⟩

theorem claim_C4_witness :
    ∃ r ∈ ([[("Company", Value.str "Acme Corp")], [("Company", Value.str "Other")]] : List Row),
      (∃ c ∈ effectiveSearchCols ["Company"] none,
          searchMatchCell "ACME" false (getCell r c) = true) ∧
      ([("Company", Value.str "Acme Corp")] : Row) =
        fillRow ["Company"] (if "v2 Score" ∈ ["Company"] then coerceScore r else r) :=
  (claim_C4_search_semantics
      ⟨["Company"], [[("Company", Value.str "Acme Corp")], [("Company", Value.str "Other")]]⟩
      "ACME" none false _ (by rfl) [("Company", Value.str "Acme Corp")]).mp (by decide)

/-- C10: explicitly requested search columns that are not present are
silently dropped before the scan (searching with the full list equals
searching with its present-only restriction); when none of the requested —
or, by default, none of the default — columns are present the search returns
an empty list rather than raising. -/
theorem claim_C10_search_missing_columns :
    (∀ df term colsReq cs lim,
      colsReq.filter (fun c => decide (c ∈ df.cols)) ≠ [] →
      searchRun (some (Except.ok df)) term (some colsReq) cs lim =
        searchRun (some (Except.ok df)) term
          (some (colsReq.filter (fun c => decide (c ∈ df.cols)))) cs lim) ∧
    (∀ df term colsReq cs lim, colsReq ≠ [] → (∀ c ∈ colsReq, c ∉ df.cols) →
      searchRun (some (Except.ok df)) term (some colsReq) cs lim = Except.ok []) ∧
    (∀ df term cs lim, (∀ c ∈ defaultSearchCols, c ∉ df.cols) →
      searchRun (some (Except.ok df)) term none cs lim = Except.ok []) := by
  have hmatch0 : ∀ term cs (r : Row), rowMatchesSearch term cs [] r = false := by
    intro term cs r
    rfl
  refine ⟨?_, ?_, ?_⟩
  · intro df term colsReq cs lim hne
    have heff : effectiveSearchCols df.cols (some colsReq) =
        effectiveSearchCols df.cols
          (some (colsReq.filter (fun c => decide (c ∈ df.cols)))) := by
      cases colsReq with
      | nil => simp at hne
      | cons c0 cr =>
        cases hf : (c0 :: cr).filter (fun c => decide (c ∈ df.cols)) with
        | nil => exact absurd hf hne
        | cons d ds =>
          simp only [effectiveSearchCols, hf]
          rw [← hf]
          rw [List.filter_filter]
          apply List.filter_congr
          intro a _
          simp
    simp only [searchRun]
    rw [heff]
  · intro df term colsReq cs lim hne hnone
    have heff : effectiveSearchCols df.cols (some colsReq) = [] := by
      cases colsReq with
      | nil => exact absurd rfl hne
      | cons c0 cr =>
        simp only [effectiveSearchCols]
        rw [List.filter_eq_nil_iff]
        intro a ha
        simp only [decide_eq_true_eq]
        exact hnone a ha
    simp only [searchRun, heff]
    have hfilt : df.rows.filter (rowMatchesSearch term cs []) = [] := by
      rw [List.filter_eq_nil_iff]
      intro a _
      rw [hmatch0]
      simp
    rw [hfilt]
    by_cases hsc : "v2 Score" ∈ df.cols
    · rw [if_pos hsc]
      show Except.ok ((applyLimit lim (sortDesc [])).map (fillRow df.cols)) = Except.ok []
      cases lim with
      | none => rfl
      | some n =>
        simp [applyLimit, sortDesc]
    · rw [if_neg hsc]
      cases lim with
      | none => rfl
      | some n =>
        simp [applyLimit]
  · intro df term cs lim hnone
    have heff : effectiveSearchCols df.cols none = [] := by
      simp only [effectiveSearchCols]
      rw [List.filter_eq_nil_iff]
      intro a ha
      simp only [decide_eq_true_eq]
      exact hnone a ha
    simp only [searchRun, heff]
    have hfilt : df.rows.filter (rowMatchesSearch term cs []) = [] := by
      rw [List.filter_eq_nil_iff]
      intro a _
      rw [hmatch0]
      simp
    rw [hfilt]
    by_cases hsc : "v2 Score" ∈ df.cols
    · rw [if_pos hsc]
      cases lim with
      | none => rfl
      | some n =>
        simp [applyLimit, sortDesc]
    · rw [if_neg hsc]
      cases lim with
      | none => rfl
      | some n =>
        simp [applyLimit]

theorem claim_C10_witness :
    searchRun (some (Except.ok (⟨["A"], [[("A", Value.str "x")]]⟩ : DF))) "x"
        (some ["B", "C"]) false none = Except.ok [] ∧
    searchRun (some (Except.ok (⟨["A"], [[("A", Value.str "x")]]⟩ : DF))) "x" none false none =
      Except.ok [] ∧
    searchRun (some (Except.ok (⟨["A", "B"], [[("A", Value.str "x")]]⟩ : DF))) "x"
        (some ["B", "C"]) false none =
      searchRun (some (Except.ok (⟨["A", "B"], [[("A", Value.str "x")]]⟩ : DF))) "x"
        (some ["B"]) false none :=
  ⟨claim_C10_search_missing_columns.2.1 ⟨["A"], [[("A", Value.str "x")]]⟩ "x" ["B", "C"]
      false none (by decide) (by decide),
   claim_C10_search_missing_columns.2.2 ⟨["A"], [[("A", Value.str "x")]]⟩ "x" false none
      (by decide),
   claim_C10_search_missing_columns.1 ⟨["A", "B"], [[("A", Value.str "x")]]⟩ "x" ["B", "C"]
      false none (by decide)⟩

theorem isAbs_append (a b : String) (h : isAbs a = true) : isAbs (a ++ b) = true := by
  obtain ⟨la⟩ := a
  obtain ⟨lb⟩ := b
  cases la with
  | nil => simp [isAbs] at h
  | cons c t =>
    show isAbs ⟨c :: (t ++ lb)⟩ = true
    exact h

/-- C6 (amended): `columns_included` is exactly the header of the frame that
is written and `profiles_exported` its row count, and the reported
`output_path` is absolute whenever at least one row is exported (given an
absolute working directory); on zero matches nothing is written,
`columns_included = []`, and — contrary to the claim — the destination
string is echoed back verbatim, so a relative input stays relative. -/
theorem claim_C6_export_result (cwd : String) (src : FileState) (output_csv : String)
    (ms : Option Int) (locs cos : Option (List String)) (columns : Option (List String))
    (res : ExportResult) (w : Option DF)
    (h : exportRun cwd src output_csv ms locs cos columns = Except.ok (res, w)) :
    (res.profiles_exported = 0 →
      res.output_path = output_csv ∧ res.columns_included = [] ∧ w = none) ∧
    (res.profiles_exported ≠ 0 →
      (isAbs cwd = true → isAbs res.output_path = true) ∧
      ∃ dfw, w = some dfw ∧ res.columns_included = dfw.cols ∧
        res.profiles_exported = dfw.rows.length) := by
  simp only [exportRun] at h
  cases hf : filterRun src ms none locs cos none none none with
  | error e => rw [hf] at h; cases h
  | ok profiles =>
    rw [hf] at h
    simp only [] at h
    by_cases hemp : profiles.isEmpty
    · rw [if_pos hemp] at h
      injection h with h2
      injection h2 with h3 h4
      subst h3
      subst h4
      exact ⟨fun _ => ⟨rfl, rfl, rfl⟩, fun hne => absurd rfl hne⟩
    · rw [if_neg hemp] at h
      injection h with h2
      injection h2 with h3 h4
      subst h3
      subst h4
      constructor
      · intro h0
        exfalso
        simp only [List.length_map] at h0
        rw [List.length_eq_zero] at h0
        rw [h0] at hemp
        exact hemp rfl
      · intro _
        refine ⟨?_, ⟨_, rfl, rfl, by simp⟩⟩
        intro habs
        show isAbs (absolutize cwd output_csv) = true
        unfold absolutize
        by_cases hp : isAbs output_csv = true
        · rw [if_pos hp]
          exact hp
        · rw [if_neg hp]
          exact isAbs_append (cwd ++ "/") output_csv (isAbs_append cwd "/" habs)

/-- C6 counterexample: with no matching rows and a relative destination
`out.csv`, the reported `output_path` is the relative string itself, not an
absolute path, refuting the claim's "absolute for every call". -/
theorem claim_C6_counterexample :
    exportRun "/work" none "out.csv" none none none none =
      Except.ok (⟨0, "out.csv", []⟩, none) ∧
    isAbs "out.csv" = false := ⟨by rfl, by rfl⟩

theorem claim_C6_witness :
    ((⟨1, "/work/o.csv", ["A"]⟩ : ExportResult).profiles_exported = 0 →
      (⟨1, "/work/o.csv", ["A"]⟩ : ExportResult).output_path = "o.csv" ∧
      (⟨1, "/work/o.csv", ["A"]⟩ : ExportResult).columns_included = [] ∧
      (some (⟨["A"], [[("A", Value.str "x")]]⟩ : DF) : Option DF) = none) ∧
    ((⟨1, "/work/o.csv", ["A"]⟩ : ExportResult).profiles_exported ≠ 0 →
      (isAbs "/work" = true →
        isAbs (⟨1, "/work/o.csv", ["A"]⟩ : ExportResult).output_path = true) ∧
      ∃ dfw, (some (⟨["A"], [[("A", Value.str "x")]]⟩ : DF) : Option DF) = some dfw ∧
        (⟨1, "/work/o.csv", ["A"]⟩ : ExportResult).columns_included = dfw.cols ∧
        (⟨1, "/work/o.csv", ["A"]⟩ : ExportResult).profiles_exported = dfw.rows.length) :=
  claim_C6_export_result "/work"
    (some (Except.ok ⟨["A"], [[("A", Value.str "x")]]⟩)) "o.csv" none none none none
    ⟨1, "/work/o.csv", ["A"]⟩ (some ⟨["A"], [[("A", Value.str "x")]]⟩) (by rfl)
